import Mathlib

/-!
Shallow embedding of the interval-join and aggregation logic of the
pupil-tutorials notebooks.

Two pieces of source code are modelled:

* Tutorial 06 (pupil diameter by fixation on surface): the aggregation
  loop that groups fixation rows by `fixation_id` (pandas `groupby`,
  which iterates groups in ascending key order), takes the first row of
  each group, skips groups whose first row is not on the surface,
  derives the window end as `start + duration / 1000`, selects pupil
  samples by three boolean masks (after start, before end, confidence
  at least `MIN_CONFIDENCE`), and appends the mean `diameter_3d` of the
  selected samples.  The pandas mean of an empty selection is NaN,
  modelled here as `Option.none`.

* The gaze-tagging notebook: `blink_id` and `fixation_id` columns are
  initialised to `None`, then one loop per event table assigns the
  event id to every gaze sample whose `gaze_timestamp` lies `between`
  the event start and end (inclusive on both sides), later events
  overwriting earlier tags.

Timestamps, durations, confidences and diameters are modelled as
rationals; missing values (pandas NaN / Python None) as `Option`.
-/

/-- A row of the pupil positions table of tutorial 06, restricted to
the three columns the notebook keeps: `pupil_timestamp`, `diameter_3d`
and `confidence`. -/
structure PupilSample where
  pupil_timestamp : ℚ
  diameter_3d : ℚ
  confidence : ℚ
  deriving DecidableEq, Repr

/-- A row of the fixations-on-surface table of tutorial 06, restricted
to the four columns the notebook keeps: `fixation_id`,
`start_timestamp`, `duration` (in milliseconds) and `on_surf`. -/
structure FixationRow where
  fixation_id : Nat
  start_timestamp : ℚ
  duration : ℚ
  on_surf : Bool
  deriving DecidableEq, Repr

/-- The confidence threshold constant of tutorial 06:
`MIN_CONFIDENCE = 0.8`. -/
def MIN_CONFIDENCE : ℚ := 8 / 10

/-- The window end derived in tutorial 06:
`fixation_end = fixation_start + first_fixation.duration / 1000`
(the duration column is in milliseconds, timestamps in seconds). -/
def rowEnd (r : FixationRow) : ℚ :=
  r.start_timestamp + r.duration / 1000

/-- Arithmetic mean of a list of rationals, `none` on the empty list:
this models `pandas.Series.mean`, which returns NaN when the series is
empty. -/
def meanQ : List ℚ → Option ℚ
  | [] => none
  | l => some (l.sum / (l.length : ℚ))

/-- The conjunction of the three boolean masks of tutorial 06:
`mask_after_start & mask_before_end & mask_high_confidence`, i.e.
`fixation_start <= pupil_timestamp`, `pupil_timestamp <= fixation_end`
and `confidence >= minConf`. -/
def aggSelect (fstart fend minConf : ℚ) (s : PupilSample) : Bool :=
  decide (fstart ≤ s.pupil_timestamp) && decide (s.pupil_timestamp ≤ fend)
    && decide (minConf ≤ s.confidence)

/-- The rows of the fixation table carrying a given `fixation_id`, in
table order: the group that pandas `groupby("fixation_id")` forms for
that key.  Its head is `fixations.iloc[0]` of tutorial 06. -/
def firstRowWith (evs : List FixationRow) (k : Nat) : Option FixationRow :=
  (evs.filter (fun r => decide (r.fixation_id = k))).head?

/-- One iteration of the aggregation loop of tutorial 06, for the group
with key `k`: take the first row of the group, skip if not `on_surf`,
otherwise select the samples in the closed window with confidence at
least `minConf` and emit the id paired with the mean `diameter_3d`. -/
def aggForKey (samples : List PupilSample) (evs : List FixationRow)
    (minConf : ℚ) (k : Nat) : Option (Nat × Option ℚ) :=
  match firstRowWith evs k with
  | none => none
  | some first =>
    if first.on_surf then
      some (first.fixation_id,
        meanQ ((samples.filter
          (aggSelect first.start_timestamp (rowEnd first) minConf)).map
            (fun s => s.diameter_3d)))
    else none

/-- The keys over which the aggregation loop of tutorial 06 iterates:
pandas `groupby("fixation_id")` iterates the distinct keys in ascending
order. -/
def groupKeys (evs : List FixationRow) : List Nat :=
  List.insertionSort (· ≤ ·) (evs.map (fun r => r.fixation_id)).dedup

/-- The whole aggregation loop of tutorial 06: iterate the groups in
ascending key order, run `aggForKey` on each, collect the emitted
`(fixation_id, mean diameter)` pairs in order. -/
def aggregateByEvent (samples : List PupilSample) (evs : List FixationRow)
    (minConf : ℚ) : List (Nat × Option ℚ) :=
  (groupKeys evs).filterMap (aggForKey samples evs minConf)

/-- A row of the gaze positions table of the tagging notebook, with the
two label columns `blink_id` and `fixation_id` that the notebook adds
(initially `None`). -/
structure GazeSample where
  gaze_timestamp : ℚ
  confidence : ℚ
  norm_pos_x : ℚ
  norm_pos_y : ℚ
  blink_id : Option Nat
  fixation_id : Option Nat
  deriving DecidableEq, Repr

/-- A row of the blinks table: id, start and end timestamps. -/
structure Blink where
  id : Nat
  start_timestamp : ℚ
  end_timestamp : ℚ
  deriving DecidableEq, Repr

/-- A row of the fixations table of the tagging notebook: id, start
timestamp and duration in milliseconds. -/
structure Fixation where
  id : Nat
  start_timestamp : ℚ
  duration : ℚ
  deriving DecidableEq, Repr

/-- The end timestamp column the tagging notebook computes:
`fixations["end_timestamp"] = fixations.start_timestamp + fixations.duration / 1_000`. -/
def fixationEnd (f : Fixation) : ℚ :=
  f.start_timestamp + f.duration / 1000

/-- `pandas.Series.between(lo, hi)`: `lo <= t <= hi`, inclusive on both
bounds. -/
def between (t lo hi : ℚ) : Bool :=
  decide (lo ≤ t) && decide (t ≤ hi)

/-- The effect of one blink-loop iteration on one gaze row: if the row
is in `found_sample_mask` (its timestamp lies between the blink start
and end), its `blink_id` cell is overwritten with the blink id;
otherwise the row is untouched. -/
def tagBlinkStep (b : Blink) (s : GazeSample) : GazeSample :=
  if between s.gaze_timestamp b.start_timestamp b.end_timestamp then
    { s with blink_id := some b.id }
  else s

/-- The blink-tagging loop: for each blink in table order, overwrite
the `blink_id` cells of the matched gaze rows. -/
def tagBlinks (g : List GazeSample) (bs : List Blink) : List GazeSample :=
  bs.foldl (fun acc b => acc.map (tagBlinkStep b)) g

/-- The effect of one fixation-loop iteration on one gaze row, using
the derived end timestamp. -/
def tagFixationStep (f : Fixation) (s : GazeSample) : GazeSample :=
  if between s.gaze_timestamp f.start_timestamp (fixationEnd f) then
    { s with fixation_id := some f.id }
  else s

/-- The fixation-tagging loop: for each fixation in table order,
overwrite the `fixation_id` cells of the matched gaze rows. -/
def tagFixations (g : List GazeSample) (fs : List Fixation) : List GazeSample :=
  fs.foldl (fun acc f => acc.map (tagFixationStep f)) g

/-- The initialisation cell of the tagging notebook:
`gaze["blink_id"] = None` and `gaze["fixation_id"] = None`. -/
def clearLabels (s : GazeSample) : GazeSample :=
  { s with blink_id := none, fixation_id := none }

/-- Initialise both label columns of the gaze table to `None`. -/
def initLabels (g : List GazeSample) : List GazeSample :=
  g.map clearLabels

/-- The complete tagging pipeline of the notebook: initialise the label
columns, run the blink loop, then run the fixation loop. -/
def tagSamples (g : List GazeSample) (bs : List Blink)
    (fs : List Fixation) : List GazeSample :=
  tagFixations (tagBlinks (initLabels g) bs) fs

/-- The mutable state the tagging notebook manipulates: the gaze frame
and the two event frames.  The tagging cells assign only to
`gaze.loc[...]`; the event frames are never written. -/
structure TagState where
  gaze : List GazeSample
  blinks : List Blink
  fixations : List Fixation

/-- Running the tagging cells on the notebook state: the gaze frame is
replaced by the tagged gaze frame, everything else is carried over. -/
def runTagging (st : TagState) : TagState :=
  { st with gaze := tagSamples st.gaze st.blinks st.fixations }

/-- Declarative description of the label the tagging loop leaves on a
sample with timestamp `t`: the id of the last blink in table order
whose closed window contains `t`, or `none` if there is none. -/
def specLastMatchingBlink (t : ℚ) (bs : List Blink) : Option Nat :=
  ((bs.filter
      (fun b => between t b.start_timestamp b.end_timestamp)).getLast?).map
    (fun b => b.id)

/-- Declarative description of the fixation label: the id of the last
fixation in table order whose closed window contains `t`. -/
def specLastMatchingFixation (t : ℚ) (fs : List Fixation) : Option Nat :=
  ((fs.filter
      (fun f => between t f.start_timestamp (fixationEnd f))).getLast?).map
    (fun f => f.id)

/-! ### Helper lemmas on the tagging pipeline -/

/-- A fold of per-row maps over the event list is the map of the
per-row fold: the loop order (events outside, rows inside) can be
exchanged. -/
theorem foldl_map_foldl {α β : Type} (step : β → α → α) (bs : List β) (g : List α) :
    bs.foldl (fun acc b => acc.map (step b)) g
      = g.map (fun s => bs.foldl (fun x b => step b x) s) := by
  induction bs generalizing g with
  | nil => simp
  | cons b bs ih =>
    simp only [List.foldl_cons]
    rw [ih, List.map_map]
    rfl

/-- Folding the blink loop over a single row only rewrites its
`blink_id` cell, with later matching blinks overwriting earlier
ones. -/
theorem blinkFold_eq (bs : List Blink) (s : GazeSample) :
    bs.foldl (fun x b => tagBlinkStep b x) s
      = { s with blink_id := (bs.foldl
            (fun acc b =>
              if between s.gaze_timestamp b.start_timestamp b.end_timestamp then
                some b.id
              else acc)
            s.blink_id) } := by
  induction bs generalizing s with
  | nil => rfl
  | cons b bs ih =>
    simp only [List.foldl_cons]
    rw [ih]
    by_cases h : between s.gaze_timestamp b.start_timestamp b.end_timestamp
    · simp [tagBlinkStep, h]
    · simp [tagBlinkStep, h]

/-- Folding the fixation loop over a single row only rewrites its
`fixation_id` cell. -/
theorem fixFold_eq (fs : List Fixation) (s : GazeSample) :
    fs.foldl (fun x f => tagFixationStep f x) s
      = { s with fixation_id := (fs.foldl
            (fun acc f =>
              if between s.gaze_timestamp f.start_timestamp (fixationEnd f) then
                some f.id
              else acc)
            s.fixation_id) } := by
  induction fs generalizing s with
  | nil => rfl
  | cons f fs ih =>
    simp only [List.foldl_cons]
    rw [ih]
    by_cases h : between s.gaze_timestamp f.start_timestamp (fixationEnd f)
    · simp [tagFixationStep, h]
    · simp [tagFixationStep, h]

/-- A last-match fold over a list equals the last element of the
filtered list (or the initial accumulator when nothing matches). -/
theorem foldl_lastMatch {α β : Type} (p : α → Bool) (f : α → β) (l : List α) :
    ∀ acc : Option β,
      l.foldl (fun a x => if p x then some (f x) else a) acc
        = (((l.filter p).getLast?).map (fun x => some (f x))).getD acc := by
  induction l with
  | nil => intro acc; rfl
  | cons a l ih =>
    intro acc
    simp only [List.foldl_cons, List.filter_cons]
    by_cases h : p a = true
    · simp only [h, if_true]
      rw [ih]
      cases hf : l.filter p with
      | nil => simp
      | cons y ys =>
        rw [List.getLast?_cons_cons]
        cases hg : (y :: ys).getLast? with
        | none => exact absurd (List.getLast?_eq_none_iff.mp hg) (by simp)
        | some z => simp
    · simp only [h]
      simp only [Bool.false_eq_true, if_false]
      exact ih acc

/-- The blink-tagging loop is a per-row map. -/
theorem tagBlinks_eq_map (g : List GazeSample) (bs : List Blink) :
    tagBlinks g bs
      = g.map (fun s =>
          { s with blink_id := (((specLastMatchingBlink s.gaze_timestamp bs).map some).getD s.blink_id) }) := by
  unfold tagBlinks
  rw [foldl_map_foldl]
  refine List.map_congr_left (fun s _ => ?_)
  rw [blinkFold_eq, specLastMatchingBlink,
    foldl_lastMatch (fun b => between s.gaze_timestamp b.start_timestamp b.end_timestamp)
      (fun b => b.id) bs s.blink_id, Option.map_map]
  rfl

/-- The fixation-tagging loop is a per-row map. -/
theorem tagFixations_eq_map (g : List GazeSample) (fs : List Fixation) :
    tagFixations g fs
      = g.map (fun s =>
          { s with fixation_id := (((specLastMatchingFixation s.gaze_timestamp fs).map some).getD s.fixation_id) }) := by
  unfold tagFixations
  rw [foldl_map_foldl]
  refine List.map_congr_left (fun s _ => ?_)
  rw [fixFold_eq, specLastMatchingFixation,
    foldl_lastMatch (fun f => between s.gaze_timestamp f.start_timestamp (fixationEnd f))
      (fun f => f.id) fs s.fixation_id, Option.map_map]
  rfl

/-- Normal form of the whole tagging pipeline: each output row keeps
the measurement fields of the input row and carries exactly the labels
described by the two last-match functions. -/
theorem tagSamples_eq_map (g : List GazeSample) (bs : List Blink) (fs : List Fixation) :
    tagSamples g bs fs
      = g.map (fun s =>
          { gaze_timestamp := s.gaze_timestamp
            confidence := s.confidence
            norm_pos_x := s.norm_pos_x
            norm_pos_y := s.norm_pos_y
            blink_id := specLastMatchingBlink s.gaze_timestamp bs
            fixation_id := specLastMatchingFixation s.gaze_timestamp fs }) := by
  unfold tagSamples initLabels
  rw [tagBlinks_eq_map, tagFixations_eq_map, List.map_map, List.map_map]
  refine List.map_congr_left (fun s _ => ?_)
  simp only [Function.comp]
  cases hb : specLastMatchingBlink s.gaze_timestamp bs <;>
    cases hf : specLastMatchingFixation s.gaze_timestamp fs <;>
      simp [clearLabels, hb, hf]

/-! ### Helper lemmas on the aggregation loop -/

/-- Whether the aggregation loop emits a row for key `k`: the group is
nonempty and its first row is on the surface. -/
def isValidId (evs : List FixationRow) (k : Nat) : Bool :=
  match firstRowWith evs k with
  | some r => r.on_surf
  | none => false

/-- The first row of the group for key `k` carries key `k`. -/
theorem firstRowWith_id {evs : List FixationRow} {k : Nat} {r : FixationRow}
    (h : firstRowWith evs k = some r) : r.fixation_id = k := by
  have hr : r ∈ (evs.filter (fun x => decide (x.fixation_id = k))) :=
    List.mem_of_mem_head? (by rw [firstRowWith] at h; simp [h])
  simpa using List.of_mem_filter hr

/-- The first row of the group for key `k` is a row of the table. -/
theorem firstRowWith_mem {evs : List FixationRow} {k : Nat} {r : FixationRow}
    (h : firstRowWith evs k = some r) : r ∈ evs := by
  have hr : r ∈ (evs.filter (fun x => decide (x.fixation_id = k))) :=
    List.mem_of_mem_head? (by rw [firstRowWith] at h; simp [h])
  exact List.mem_of_mem_filter hr

/-- A key appears among the rows iff its group has a first row. -/
theorem firstRowWith_isSome {evs : List FixationRow} {k : Nat} :
    (∃ r, firstRowWith evs k = some r) ↔ ∃ r ∈ evs, r.fixation_id = k := by
  constructor
  · rintro ⟨r, hr⟩
    exact ⟨r, firstRowWith_mem hr, firstRowWith_id hr⟩
  · rintro ⟨r, hmem, hid⟩
    rw [firstRowWith]
    cases hh : (evs.filter (fun x => decide (x.fixation_id = k))).head? with
    | some r' => exact ⟨r', rfl⟩
    | none =>
      rw [List.head?_eq_none_iff, List.filter_eq_nil_iff] at hh
      exact absurd (by simpa using hid) (hh r hmem)

/-- The id component of an emitted row is the key of its group. -/
theorem aggForKey_fst (samples : List PupilSample) (evs : List FixationRow)
    (minConf : ℚ) (k : Nat) :
    (aggForKey samples evs minConf k).map Prod.fst
      = if isValidId evs k then some k else none := by
  rw [aggForKey, isValidId]
  cases h : firstRowWith evs k with
  | none => rfl
  | some first =>
    by_cases hs : first.on_surf = true
    · simp [hs, firstRowWith_id h]
    · simp [hs]

/-- The loop over `keys` emits exactly the valid keys, in the order of
`keys`. -/
theorem filterMap_agg_fst (samples : List PupilSample) (evs : List FixationRow)
    (minConf : ℚ) (keys : List Nat) :
    (keys.filterMap (aggForKey samples evs minConf)).map Prod.fst
      = keys.filter (isValidId evs) := by
  induction keys with
  | nil => rfl
  | cons k keys ih =>
    rw [List.filterMap_cons, List.filter_cons]
    have hk := aggForKey_fst samples evs minConf k
    cases h : aggForKey samples evs minConf k with
    | none =>
      rw [h] at hk
      by_cases hv : isValidId evs k = true
      · rw [hv] at hk; simp at hk
      · simp only [Bool.not_eq_true] at hv
        simp [hv, ih]
    | some p =>
      rw [h] at hk
      by_cases hv : isValidId evs k = true
      · rw [hv] at hk
        have hpk : p.1 = k := by simpa using hk
        simp only [List.map_cons, hv, if_true, ih, hpk]
      · simp [hv] at hk

/-- The id column of the aggregation output is the list of valid keys
in ascending order. -/
theorem aggregate_fst (samples : List PupilSample) (evs : List FixationRow)
    (minConf : ℚ) :
    (aggregateByEvent samples evs minConf).map Prod.fst
      = (groupKeys evs).filter (isValidId evs) := by
  rw [aggregateByEvent, filterMap_agg_fst]

/-- Membership in the key list of the loop. -/
theorem mem_groupKeys {evs : List FixationRow} {k : Nat} :
    k ∈ groupKeys evs ↔ ∃ r ∈ evs, r.fixation_id = k := by
  rw [groupKeys, (List.perm_insertionSort (· ≤ ·) _).mem_iff, List.mem_dedup]
  simp

/-- The key list of the loop has no duplicates. -/
theorem groupKeys_nodup (evs : List FixationRow) : (groupKeys evs).Nodup :=
  ((List.perm_insertionSort (· ≤ ·) _).nodup_iff).mpr (List.nodup_dedup _)

/-- The key list of the loop is strictly ascending. -/
theorem groupKeys_sorted (evs : List FixationRow) :
    (groupKeys evs).Pairwise (· < ·) := by
  have hs : (groupKeys evs).Pairwise (· ≤ ·) :=
    List.sorted_insertionSort (· ≤ ·) _
  have hn : (groupKeys evs).Pairwise (· ≠ ·) := groupKeys_nodup evs
  exact (hs.and hn).imp (fun h => lt_of_le_of_ne h.1 h.2)

/-- Every row the loop emits carries the key of the group it came
from. -/
theorem mem_filterMap_agg_fst {samples : List PupilSample} {evs : List FixationRow}
    {minConf : ℚ} {keys : List Nat} {p : Nat × Option ℚ}
    (hp : p ∈ keys.filterMap (aggForKey samples evs minConf)) : p.1 ∈ keys := by
  rcases List.mem_filterMap.mp hp with ⟨j, hj, hpj⟩
  have := aggForKey_fst samples evs minConf j
  rw [hpj] at this
  by_cases hv : isValidId evs j = true
  · rw [hv] at this
    have hpk : p.1 = j := by simpa using this
    rw [hpk]; exact hj
  · simp [hv] at this

/-- Looking up key `k` in the aggregation output finds exactly the row
the loop iteration for `k` emits. -/
theorem find_agg (samples : List PupilSample) (evs : List FixationRow)
    (minConf : ℚ) {k : Nat} (hk : ∃ r ∈ evs, r.fixation_id = k) :
    (aggregateByEvent samples evs minConf).find? (fun p => decide (p.1 = k))
      = aggForKey samples evs minConf k := by
  rw [aggregateByEvent]
  have hmem : k ∈ groupKeys evs := mem_groupKeys.mpr hk
  have hnd : (groupKeys evs).Nodup := groupKeys_nodup evs
  generalize hgk : groupKeys evs = keys at hmem hnd
  clear hgk hk
  induction keys with
  | nil => cases hmem
  | cons j keys ih =>
    rw [List.filterMap_cons]
    rcases List.nodup_cons.mp hnd with ⟨hj, hnd'⟩
    by_cases hjk : j = k
    · subst hjk
      cases h : aggForKey samples evs minConf j with
      | none =>
        simp only [h]
        refine List.find?_eq_none.mpr (fun p hp hpj => hj ?_)
        have hpk : p.1 = j := by simpa using hpj
        exact hpk ▸ mem_filterMap_agg_fst hp
      | some p =>
        have hpj : p.1 = j := by
          have := aggForKey_fst samples evs minConf j
          rw [h] at this
          by_cases hv : isValidId evs j = true
          · rw [hv] at this; simpa using this
          · simp [hv] at this
        rw [List.find?_cons_of_pos _ (by simp [hpj])]
    · have hmem' : k ∈ keys := by
        cases List.mem_cons.mp hmem with
        | inl h => exact absurd h.symm hjk
        | inr h => exact h
      cases h : aggForKey samples evs minConf j with
      | none => exact ih hmem' hnd'
      | some p =>
        have hpj : p.1 = j := by
          have := aggForKey_fst samples evs minConf j
          rw [h] at this
          by_cases hv : isValidId evs j = true
          · rw [hv] at this; simpa using this
          · simp [hv] at this
        rw [List.find?_cons_of_neg _ (by simp [hpj, hjk])]
        exact ih hmem' hnd'

/-- The blink label is present as soon as some blink window contains
the timestamp. -/
theorem specLastMatchingBlink_isSome {t : ℚ} {bs : List Blink}
    (h : ∃ b ∈ bs, between t b.start_timestamp b.end_timestamp = true) :
    (specLastMatchingBlink t bs).isSome = true := by
  rcases h with ⟨b, hb, hbt⟩
  have hne : bs.filter (fun x => between t x.start_timestamp x.end_timestamp) ≠ [] := by
    intro hnil
    exact absurd hbt (by simpa using (List.filter_eq_nil_iff.mp hnil) b hb)
  rw [specLastMatchingBlink]
  cases hg : (bs.filter (fun b => between t b.start_timestamp b.end_timestamp)).getLast? with
  | none => exact absurd (List.getLast?_eq_none_iff.mp hg) hne
  | some x => rfl

/-- The fixation label is present as soon as some fixation window
contains the timestamp. -/
theorem specLastMatchingFixation_isSome {t : ℚ} {fs : List Fixation}
    (h : ∃ f ∈ fs, between t f.start_timestamp (fixationEnd f) = true) :
    (specLastMatchingFixation t fs).isSome = true := by
  rcases h with ⟨f, hf, hft⟩
  have hne : fs.filter (fun x => between t x.start_timestamp (fixationEnd x)) ≠ [] := by
    intro hnil
    exact absurd hft (by simpa using (List.filter_eq_nil_iff.mp hnil) f hf)
  rw [specLastMatchingFixation]
  cases hg : (fs.filter (fun f => between t f.start_timestamp (fixationEnd f))).getLast? with
  | none => exact absurd (List.getLast?_eq_none_iff.mp hg) hne
  | some x => rfl

/-! ### Claim theorems -/

/-- C3: after `tagSamples`, every sample's label equals the identifier
of the last event in iteration order whose closed window contains the
sample's timestamp (for each of the two event kinds), and equals the
unmatched sentinel `none` when no window contains it; empty event
sequences yield all-unmatched output. -/
theorem c3_labels_are_last_match (g : List GazeSample) (bs : List Blink)
    (fs : List Fixation) :
    ((tagSamples g bs fs).map (fun s => (s.blink_id, s.fixation_id))
        = g.map (fun s =>
            (specLastMatchingBlink s.gaze_timestamp bs,
             specLastMatchingFixation s.gaze_timestamp fs)))
    ∧ (tagSamples g [] []).map (fun s => (s.blink_id, s.fixation_id))
        = g.map (fun _ => ((none : Option Nat), (none : Option Nat))) := by
  constructor
  · rw [tagSamples_eq_map, List.map_map]
    rfl
  · rw [tagSamples_eq_map, List.map_map]
    rfl

/-- C9: tagging is idempotent — running the tagging pipeline a second
time with the same events leaves every label (indeed every field)
unchanged. -/
theorem c9_tagging_idempotent (g : List GazeSample) (bs : List Blink)
    (fs : List Fixation) :
    tagSamples (tagSamples g bs fs) bs fs = tagSamples g bs fs := by
  rw [tagSamples_eq_map g, tagSamples_eq_map, List.map_map]
  rfl

/-- C8: the tagging cells assign only to the gaze frame; both event
frames are unchanged after the run. -/
theorem c8_events_not_mutated (st : TagState) :
    (runTagging st).blinks = st.blinks ∧ (runTagging st).fixations = st.fixations :=
  ⟨rfl, rfl⟩

/-- C4: the aggregation selection is exactly "start ≤ timestamp ≤ end
and confidence ≥ threshold", all bounds inclusive, while the tagging
predicate is exactly "lo ≤ timestamp ≤ hi" with no confidence
condition. -/
theorem c4_match_predicate (fstart fend minConf : ℚ) (s : PupilSample)
    (t lo hi : ℚ) :
    (aggSelect fstart fend minConf s = true
        ↔ (fstart ≤ s.pupil_timestamp ∧ s.pupil_timestamp ≤ fend
            ∧ minConf ≤ s.confidence))
    ∧ (between t lo hi = true ↔ (lo ≤ t ∧ t ≤ hi)) := by
  constructor
  · simp [aggSelect, and_assoc]
  · simp [between]

/-- C6: an event given as a start (seconds) and a duration
(milliseconds) is matched against the closed window
`[start, start + duration / 1000]`, in both the aggregation and the
tagging notebooks; in particular start `10.0` with duration `500`
yields the window `[10, 21/2]`. -/
theorem c6_duration_window (r : FixationRow) (f : Fixation) (minConf : ℚ)
    (s : PupilSample) (t : ℚ) :
    (aggSelect r.start_timestamp (rowEnd r) minConf s = true
        ↔ (r.start_timestamp ≤ s.pupil_timestamp
            ∧ s.pupil_timestamp ≤ r.start_timestamp + r.duration / 1000
            ∧ minConf ≤ s.confidence))
    ∧ (between t f.start_timestamp (fixationEnd f) = true
        ↔ (f.start_timestamp ≤ t ∧ t ≤ f.start_timestamp + f.duration / 1000))
    ∧ fixationEnd ⟨3, 10, 500⟩ = 21 / 2 := by
  refine ⟨?_, ?_, ?_⟩
  · simp [aggSelect, rowEnd, and_assoc]
  · simp [between, fixationEnd]
  · rw [fixationEnd]
    norm_num

/-- C10: the blink-tagging pass changes only the `blink_id` column and
the fixation-tagging pass changes only the `fixation_id` column (all
other sample fields are preserved pointwise), so a sample whose
timestamp lies in both a blink window and a fixation window carries
both identifiers after the pipeline. -/
theorem c10_label_columns_independent (g : List GazeSample) (bs : List Blink)
    (fs : List Fixation) (i : Nat) (s : GazeSample) (hs : g[i]? = some s)
    (b : Blink) (hb : b ∈ bs)
    (hbt : between s.gaze_timestamp b.start_timestamp b.end_timestamp = true)
    (f : Fixation) (hf : f ∈ fs)
    (hft : between s.gaze_timestamp f.start_timestamp (fixationEnd f) = true) :
    ((tagBlinks g bs).map (fun x =>
          (x.gaze_timestamp, x.confidence, x.norm_pos_x, x.norm_pos_y, x.fixation_id))
        = g.map (fun x =>
          (x.gaze_timestamp, x.confidence, x.norm_pos_x, x.norm_pos_y, x.fixation_id)))
    ∧ ((tagFixations g fs).map (fun x =>
          (x.gaze_timestamp, x.confidence, x.norm_pos_x, x.norm_pos_y, x.blink_id))
        = g.map (fun x =>
          (x.gaze_timestamp, x.confidence, x.norm_pos_x, x.norm_pos_y, x.blink_id)))
    ∧ ∃ s2, (tagSamples g bs fs)[i]? = some s2
        ∧ s2.blink_id.isSome = true ∧ s2.fixation_id.isSome = true := by
  refine ⟨?_, ?_, ?_⟩
  · rw [tagBlinks_eq_map, List.map_map]
    rfl
  · rw [tagFixations_eq_map, List.map_map]
    rfl
  · rw [tagSamples_eq_map, List.getElem?_map, hs]
    refine ⟨_, rfl, ?_, ?_⟩
    · exact specLastMatchingBlink_isSome ⟨b, hb, hbt⟩
    · exact specLastMatchingFixation_isSome ⟨f, hf, hft⟩

/-- Witness for C10 at a concrete input: the gaze sample at timestamp 0
lies in the blink window `[0, 2]` and in the fixation window
`[0, 0 + 1000/1000]`, and after tagging it carries both labels. -/
theorem c10_witness :
    ∃ s2, (tagSamples [⟨0, 1, 0, 0, none, none⟩] [⟨5, 0, 2⟩] [⟨65, 0, 1000⟩])[0]?
        = some s2 ∧ s2.blink_id.isSome = true ∧ s2.fixation_id.isSome = true :=
  (c10_label_columns_independent [⟨0, 1, 0, 0, none, none⟩] [⟨5, 0, 2⟩]
    [⟨65, 0, 1000⟩] 0 ⟨0, 1, 0, 0, none, none⟩ rfl
    ⟨5, 0, 2⟩ (by decide) (by decide)
    ⟨65, 0, 1000⟩ (by decide)
    (by rw [between, fixationEnd]; norm_num)).2.2

/-- Modelled from the spec: the ordering the spec asserts for the
aggregation output — the distinct event identifiers in order of first
appearance in the events table.  This definition exists only to state
that ordering; the code's ordering is `groupKeys`. -/
def dedupFirstAux (seen : List Nat) : List Nat → List Nat
  | [] => []
  | x :: xs =>
    if x ∈ seen then dedupFirstAux seen xs else x :: dedupFirstAux (x :: seen) xs

/-- Modelled from the spec: identifiers of the events table,
deduplicated keeping first occurrences, in order of first
appearance. -/
def firstAppearanceIds (evs : List FixationRow) : List Nat :=
  dedupFirstAux [] (evs.map (fun r => r.fixation_id))

/-- Counterexample to C1: with the events table listing identifier 2
before identifier 1, the aggregation output is ordered `[1, 2]`
(ascending identifiers, the pandas groupby order), not `[2, 1]` (the
order of first appearance the claim asserts). -/
theorem c1_counterexample :
    ((aggregateByEvent [] [⟨2, 0, 1000, true⟩, ⟨1, 0, 1000, true⟩]
          MIN_CONFIDENCE).map Prod.fst = [1, 2])
    ∧ firstAppearanceIds [⟨2, 0, 1000, true⟩, ⟨1, 0, 1000, true⟩] = [2, 1]
    ∧ ((aggregateByEvent [] [⟨2, 0, 1000, true⟩, ⟨1, 0, 1000, true⟩]
          MIN_CONFIDENCE).map Prod.fst
        ≠ firstAppearanceIds [⟨2, 0, 1000, true⟩, ⟨1, 0, 1000, true⟩]) := by
  refine ⟨by decide, by decide, by decide⟩

/-- C1 (amended): the aggregation emits exactly one pair per distinct
valid identifier (one whose group's first row is on the surface), in
strictly ascending identifier order — not in order of first
appearance. -/
theorem c1_one_pair_per_valid_id_sorted (samples : List PupilSample)
    (evs : List FixationRow) (minConf : ℚ) :
    ((aggregateByEvent samples evs minConf).map Prod.fst).Pairwise (· < ·)
    ∧ ∀ k : Nat,
        k ∈ (aggregateByEvent samples evs minConf).map Prod.fst
          ↔ ∃ r, firstRowWith evs k = some r ∧ r.on_surf = true := by
  rw [aggregate_fst]
  constructor
  · exact (groupKeys_sorted evs).filter _
  · intro k
    rw [List.mem_filter]
    constructor
    · rintro ⟨hk, hv⟩
      rw [isValidId] at hv
      cases h : firstRowWith evs k with
      | none => rw [h] at hv; cases hv
      | some r => exact ⟨r, rfl, by rw [h] at hv; simpa using hv⟩
    · rintro ⟨r, hr, hsurf⟩
      refine ⟨mem_groupKeys.mpr (firstRowWith_isSome.mp ⟨r, hr⟩), ?_⟩
      rw [isValidId, hr]
      exact hsurf

/-- Counterexample to C7: the threshold 2 lies outside `[0, 1]`, yet
the aggregation completes normally (the code performs no range check
and raises nothing); the over-range threshold merely excludes every
sample, yielding the empty-mean sentinel. -/
theorem c7_counterexample :
    ¬((0 : ℚ) ≤ 2 ∧ (2 : ℚ) ≤ 1)
    ∧ aggregateByEvent [⟨0, 3, 1⟩] [⟨1, 0, 1000, true⟩] 2 = [(1, none)] := by
  constructor
  · norm_num
  · simp [aggregateByEvent, groupKeys, aggForKey, firstRowWith, aggSelect,
      rowEnd, meanQ]

/-- C7 (amended): the code never validates `minConfidence` and never
fails for any value of it: for every threshold, in or out of `[0, 1]`,
the aggregation returns normally and emits exactly the same event
identifiers; the threshold only influences the aggregated values. -/
theorem c7_no_threshold_validation (samples : List PupilSample)
    (evs : List FixationRow) (c c' : ℚ) :
    (aggregateByEvent samples evs c).map Prod.fst
      = (aggregateByEvent samples evs c').map Prod.fst := by
  rw [aggregate_fst, aggregate_fst]

/-- C2: when an identifier appears in several rows of the events
table, the aggregation result looked up for that identifier — present
with the aggregate of the first row's window, or absent when the first
row is off-surface — is exactly what a one-row events table holding
only the first occurrence would produce; later duplicate rows
contribute nothing. -/
theorem c2_duplicate_rows_ignored (samples : List PupilSample)
    (evs : List FixationRow) (minConf : ℚ) (k : Nat) (first : FixationRow)
    (hf : firstRowWith evs k = some first) :
    (aggregateByEvent samples evs minConf).find? (fun p => decide (p.1 = k))
      = (aggregateByEvent samples [first] minConf).find?
          (fun p => decide (p.1 = k)) := by
  have hid : first.fixation_id = k := firstRowWith_id hf
  have hk : ∃ r ∈ evs, r.fixation_id = k := firstRowWith_isSome.mp ⟨first, hf⟩
  have hk' : ∃ r ∈ [first], r.fixation_id = k := ⟨first, by simp, hid⟩
  rw [find_agg samples evs minConf hk, find_agg samples [first] minConf hk']
  have hf' : firstRowWith [first] k = some first := by
    rw [firstRowWith, List.filter_cons]
    simp [hid]
  rw [aggForKey, aggForKey, hf, hf']

/-- Witness for C2: identifier 7 appears twice, with different
start/duration and validity on the second row; the lookup for 7 agrees
with the one-row table holding only the first occurrence. -/
theorem c2_witness :
    firstRowWith [⟨7, 0, 1000, true⟩, ⟨7, 5, 2000, false⟩] 7
        = some ⟨7, 0, 1000, true⟩
    ∧ (aggregateByEvent [] [⟨7, 0, 1000, true⟩, ⟨7, 5, 2000, false⟩]
          MIN_CONFIDENCE).find? (fun p => decide (p.1 = 7))
        = (aggregateByEvent [] [⟨7, 0, 1000, true⟩] MIN_CONFIDENCE).find?
            (fun p => decide (p.1 = 7)) :=
  ⟨by decide,
    c2_duplicate_rows_ignored [] [⟨7, 0, 1000, true⟩, ⟨7, 5, 2000, false⟩]
      MIN_CONFIDENCE 7 ⟨7, 0, 1000, true⟩ (by decide)⟩

/-- C5: a valid event whose window selects no qualifying sample still
produces a pair, whose aggregate is the `none` sentinel — a value
distinct from `some 0`; no failure is raised. -/
theorem c5_empty_match_sentinel (samples : List PupilSample)
    (evs : List FixationRow) (minConf : ℚ) (k : Nat) (first : FixationRow)
    (hf : firstRowWith evs k = some first) (hv : first.on_surf = true)
    (hempty : samples.filter
        (aggSelect first.start_timestamp (rowEnd first) minConf) = []) :
    (aggregateByEvent samples evs minConf).find? (fun p => decide (p.1 = k))
        = some (k, (none : Option ℚ))
    ∧ (none : Option ℚ) ≠ some 0 := by
  constructor
  · rw [find_agg samples evs minConf (firstRowWith_isSome.mp ⟨first, hf⟩),
      aggForKey, hf]
    simp [hv, hempty, meanQ, firstRowWith_id hf]
  · simp

/-- Witness for C5: the only pupil sample lies before the window of the
valid event 4, so the selection is empty and the emitted aggregate is
the `none` sentinel. -/
theorem c5_witness :
    (aggregateByEvent [⟨5, 3, 1⟩] [⟨4, 10, 1000, true⟩] 1).find?
        (fun p => decide (p.1 = 4)) = some (4, (none : Option ℚ))
    ∧ (none : Option ℚ) ≠ some 0 :=
  c5_empty_match_sentinel [⟨5, 3, 1⟩] [⟨4, 10, 1000, true⟩] 1 4
    ⟨4, 10, 1000, true⟩ (by decide) rfl (by decide)
